import Mathlib

/- Verification of the brainspy-algorithms core: a shallow embedding of
   bspyalgo/utils/io.py (YAML configuration loading with inclusion directives)
   and bspyalgo/platforms/chooser.py (platform selection and the neural-network
   simulation platform), with theorems settling the specified properties. -/

namespace BspyAlgo

/- ## Configuration loader (bspyalgo/utils/io.py) -/

/-- File-system paths are modelled as lists of segments.  Joining a relative
path appends its segments; os.path.dirname drops the final segment. -/
abbrev Path := List String

/-- Embeds os.path.join for a relative second argument. -/
def pathJoin (root : Path) (rel : Path) : Path := root ++ rel

/-- Embeds os.path.dirname: drops the final segment of a path. -/
def dirname (p : Path) : Path := p.dropLast

mutual
/-- A parsed-but-unresolved YAML document: scalars, sequences, mappings, and
nodes tagged with the inclusion directive carrying a relative path. -/
inductive YDoc : Type where
  | scalar : String → YDoc
  | inc : Path → YDoc
  | seq : YSeq → YDoc
  | ymap : YMap → YDoc

/-- Sequence of YAML documents (nested list, as its own type for clean
structural recursion). -/
inductive YSeq : Type where
  | nil : YSeq
  | cons : YDoc → YSeq → YSeq

/-- Mapping of string keys to YAML documents. -/
inductive YMap : Type where
  | nil : YMap
  | cons : String → YDoc → YMap → YMap
end

mutual
/-- A fully resolved document: plain scalars, sequences and mappings, with no
constructor for the inclusion directive (so no residual directive markers can
occur in a resolved result). -/
inductive PDoc : Type where
  | scalar : String → PDoc
  | seq : PSeq → PDoc
  | pmap : PMap → PDoc

/-- Sequence of resolved documents. -/
inductive PSeq : Type where
  | nil : PSeq
  | cons : PDoc → PSeq → PSeq

/-- Mapping of string keys to resolved documents. -/
inductive PMap : Type where
  | nil : PMap
  | cons : String → PDoc → PMap → PMap
end

/-- The file system visible to the loader: parsed file contents by path. -/
abbrev FS := List (Path × YDoc)

/-- Looks a file up in the modelled file system (open of a path). -/
def lookupFS (fs : FS) (p : Path) : Option YDoc :=
  (fs.find? (fun e => e.1 == p)).map (fun e => e.2)

/-- Message of the ConstructorError the default yaml loader raises on a node
whose tag has no registered constructor. -/
def incTagErr : String := "could not determine a constructor for the tag !include"

/-- Message standing for the error raised when opening a missing file. -/
def fileNotFoundErr : String := "FileNotFoundError"

mutual
/-- Embeds yaml.load with the default loader, which has no constructor
registered for the inclusion tag: any directive node makes it fail. -/
def plainLoad : YDoc → Except String PDoc
  | .scalar s => .ok (.scalar s)
  | .inc _ => .error incTagErr
  | .seq ds =>
    match plainLoadSeq ds with
    | .ok ps => .ok (.seq ps)
    | .error e => .error e
  | .ymap kvs =>
    match plainLoadMap kvs with
    | .ok pm => .ok (.pmap pm)
    | .error e => .error e

/-- Sequence case of plainLoad. -/
def plainLoadSeq : YSeq → Except String PSeq
  | .nil => .ok .nil
  | .cons d rest =>
    match plainLoad d, plainLoadSeq rest with
    | .ok pd, .ok ps => .ok (.cons pd ps)
    | .error e, _ => .error e
    | .ok _, .error e => .error e

/-- Mapping case of plainLoad. -/
def plainLoadMap : YMap → Except String PMap
  | .nil => .ok .nil
  | .cons k d rest =>
    match plainLoad d, plainLoadMap rest with
    | .ok pd, .ok pm => .ok (.cons k pd pm)
    | .error e, _ => .error e
    | .ok _, .error e => .error e
end

/-- Embeds IncludeLoader._include: the current root is saved, the filename is
joined from the current root and the relative path, the root is set to the
dirname of the filename and then immediately restored to the saved value
(before the nested load), and the nested file is loaded with plain yaml.load,
i.e. the default loader with no constructor for the inclusion tag. -/
def IncludeLoader_include (fs : FS) (root : Path) (rel : Path) : Except String PDoc :=
  let oldRoot := root
  let filename := pathJoin root rel
  let _rootPushed := dirname filename
  let _rootRestored := oldRoot
  match lookupFS fs filename with
  | none => .error fileNotFoundErr
  | some d => plainLoad d

mutual
/-- Embeds the construction pass of IncludeLoader over the root document: each
directive node is handled by IncludeLoader._include; since that method restores
the root before returning, every sibling directive sees the same root. -/
def incResolve (fs : FS) (root : Path) : YDoc → Except String PDoc
  | .scalar s => .ok (.scalar s)
  | .inc rel => IncludeLoader_include fs root rel
  | .seq ds =>
    match incResolveSeq fs root ds with
    | .ok ps => .ok (.seq ps)
    | .error e => .error e
  | .ymap kvs =>
    match incResolveMap fs root kvs with
    | .ok pm => .ok (.pmap pm)
    | .error e => .error e

/-- Sequence case of incResolve. -/
def incResolveSeq (fs : FS) (root : Path) : YSeq → Except String PSeq
  | .nil => .ok .nil
  | .cons d rest =>
    match incResolve fs root d, incResolveSeq fs root rest with
    | .ok pd, .ok ps => .ok (.cons pd ps)
    | .error e, _ => .error e
    | .ok _, .error e => .error e

/-- Mapping case of incResolve. -/
def incResolveMap (fs : FS) (root : Path) : YMap → Except String PMap
  | .nil => .ok .nil
  | .cons k d rest =>
    match incResolve fs root d, incResolveMap fs root rest with
    | .ok pd, .ok pm => .ok (.cons k pd pm)
    | .error e, _ => .error e
    | .ok _, .error e => .error e
end

/-- Embeds load_configs: the file is opened (so the loader root defaults to the
directory containing the file) and loaded with Loader set to IncludeLoader. -/
def load_configs (fs : FS) (file_name : Path) : Except String PDoc :=
  match lookupFS fs file_name with
  | none => .error fileNotFoundErr
  | some d => incResolve fs (dirname file_name) d

mutual
/-- Tests whether a document contains an inclusion directive anywhere. -/
def hasIncb : YDoc → Bool
  | .scalar _ => false
  | .inc _ => true
  | .seq ds => hasIncSeq ds
  | .ymap kvs => hasIncMap kvs

/-- Sequence case of hasIncb. -/
def hasIncSeq : YSeq → Bool
  | .nil => false
  | .cons d rest => hasIncb d || hasIncSeq rest

/-- Mapping case of hasIncb. -/
def hasIncMap : YMap → Bool
  | .nil => false
  | .cons _ d rest => hasIncb d || hasIncMap rest
end

mutual
/-- Direct translation of a directive-free document into a resolved document;
a directive node (never reached under the directive-free hypothesis) is mapped
to an empty scalar. -/
def toPDoc : YDoc → PDoc
  | .scalar s => .scalar s
  | .inc _ => .scalar ""
  | .seq ds => .seq (toPSeq ds)
  | .ymap kvs => .pmap (toPMap kvs)

/-- Sequence case of toPDoc. -/
def toPSeq : YSeq → PSeq
  | .nil => .nil
  | .cons d rest => .cons (toPDoc d) (toPSeq rest)

/-- Mapping case of toPDoc. -/
def toPMap : YMap → PMap
  | .nil => .nil
  | .cons k d rest => .cons k (toPDoc d) (toPMap rest)
end

mutual
/-- Tests that every inclusion directive in a document references a file that
is present in the file system (relative to the given base directory) and whose
contents are themselves directive-free: the one-level include shape that the
plain nested loader can still handle. -/
def oneLevelOKb (fs : FS) (base : Path) : YDoc → Bool
  | .scalar _ => true
  | .inc rel =>
    match lookupFS fs (pathJoin base rel) with
    | none => false
    | some d => !(hasIncb d)
  | .seq ds => oneLevelOKSeq fs base ds
  | .ymap kvs => oneLevelOKMap fs base kvs

/-- Sequence case of oneLevelOKb. -/
def oneLevelOKSeq (fs : FS) (base : Path) : YSeq → Bool
  | .nil => true
  | .cons d rest => oneLevelOKb fs base d && oneLevelOKSeq fs base rest

/-- Mapping case of oneLevelOKb. -/
def oneLevelOKMap (fs : FS) (base : Path) : YMap → Bool
  | .nil => true
  | .cons _ d rest => oneLevelOKb fs base d && oneLevelOKMap fs base rest
end

mutual
/-- Expected result of resolution, written from the specification wording: each
inclusion directive scalar is replaced by the document of the referenced file,
every other node is kept; used to state the functional-correctness claims. -/
def specResolve (fs : FS) (base : Path) : YDoc → PDoc
  | .scalar s => .scalar s
  | .inc rel => toPDoc ((lookupFS fs (pathJoin base rel)).getD (.scalar ""))
  | .seq ds => .seq (specResolveSeq fs base ds)
  | .ymap kvs => .pmap (specResolveMap fs base kvs)

/-- Sequence case of specResolve. -/
def specResolveSeq (fs : FS) (base : Path) : YSeq → PSeq
  | .nil => .nil
  | .cons d rest => .cons (specResolve fs base d) (specResolveSeq fs base rest)

/-- Mapping case of specResolve. -/
def specResolveMap (fs : FS) (base : Path) : YMap → PMap
  | .nil => .nil
  | .cons k d rest => .cons k (specResolve fs base d) (specResolveMap fs base rest)
end

/- ## Platform chooser (bspyalgo/platforms/chooser.py) -/

/-- Transform configuration of the platform: the trafo_indx gene positions
together with the trafo function.  The source stores trafo_indx as None and
trafo as an identity lambda when the configuration has no trafo_indx key; that
pair of fields is modelled as an Option, with none standing for the
None-and-identity pair. -/
abbrev TrafoCfg := List Nat × (List (List ℚ) → List ℚ → List (List ℚ))

/-- Static data of the loaded torch model: the amplification and amplitude
metadata and the batched inference function
(TorchModel.inference_in_nanoamperes), which maps a matrix of shape
(time-steps, input-dim) to a matrix of shape (time-steps, output-dim). -/
structure ModelInfo where
  amplification : ℚ
  amplitude : List ℚ
  infer : List (List ℚ) → List (List ℚ)

/-- State of a constructed SingleChipSimulationNN platform, with the field
names of the source. -/
structure SingleChipSimulationNN where
  amplification : ℚ
  nn_input_dim : Nat
  input_indices : List Nat
  control_indx : List Nat
  trafoCfg : Option TrafoCfg
  model : List (List ℚ) → List (List ℚ)

/-- Embeds SingleChipSimulationNN.init, the constructor: the model is loaded
(modelled by the ModelInfo argument), nn_input_dim is the length of the
amplitude metadata, nr_control_genes is nn_input_dim minus the number of input
indices (computed in ℤ since the Python subtraction can go negative), and the
bare statement, assert nr_control_genes equals len of control_indx, raises an
AssertionError carrying no message when it fails, modelled as an error with the
empty string. -/
def SingleChipSimulationNN.init (info : ModelInfo) (input_indices : List Nat)
    (control_indices : List Nat) (trafoCfg : Option TrafoCfg) :
    Except String SingleChipSimulationNN :=
  let nn_input_dim := info.amplitude.length
  let nr_control_genes : ℤ := (nn_input_dim : ℤ) - (input_indices.length : ℤ)
  if nr_control_genes = (control_indices.length : ℤ) then
    .ok ⟨info.amplification, nn_input_dim, input_indices, control_indices, trafoCfg, info.infer⟩
  else
    .error ""

/-- Embeds the fancy index gene_pool[j, idxs]: selects the gene values of one
genome at the given positions. -/
def geneSelect (genome : List ℚ) (idxs : List Nat) : List ℚ :=
  idxs.map (fun i => genome.getD i 0)

/-- Embeds np.ones_like(target_wfm)[:, np.newaxis] multiplied by the selected
control-gene row: one row per time-step of the target waveform, each equal to
one times each gene value. -/
def controlBlock (target_wfm : List ℚ) (genes : List ℚ) : List (List ℚ) :=
  target_wfm.map (fun _ => genes.map (fun g => 1 * g))

/-- Embeds np.delete(np.arange(dim), idxs): the increasing list of indices
below dim that do not occur in idxs. -/
def npDelete (dim : Nat) (idxs : List Nat) : List Nat :=
  (List.range dim).filter (fun c => decide (c ∉ idxs))

/-- Embeds the numpy transpose of a rectangular two-dimensional array given as
a list of rows. -/
def transposeL (m : List (List ℚ)) : List (List ℚ) :=
  (List.range (m.headD []).length).map (fun t => m.map (fun row => row.getD t 0))

/-- Embeds the numpy fancy assignment row[idxs] = vals on a single row: each
listed position is set to the corresponding value in order, so on a duplicated
position the last value wins, exactly as the buffered numpy assignment. -/
def assignRow : List ℚ → List Nat → List ℚ → List ℚ
  | row, [], _ => row
  | row, _ :: _, [] => row
  | row, i :: is, v :: vs => assignRow (row.set i v) is vs

/-- Embeds the numpy fancy assignment x[:, idxs] = vals on a two-dimensional
array: within every row t, position idxs[k] is set to vals[t][k]. -/
def assignCols (m : List (List ℚ)) (idxs : List Nat) (vals : List (List ℚ)) : List (List ℚ) :=
  (List.range m.length).map (fun t => assignRow (m.getD t []) idxs (vals.getD t []))

/-- Embeds the data-input block self.trafo(inputs_wfm, gene_pool[j, self.trafo_indx])
of the optimize loop: the input waveform itself when no trafo is configured
(the identity lambda of the constructor), and the trafo function applied to the
waveform and the genome values at trafo_indx otherwise. -/
def dataBlockOf (p : SingleChipSimulationNN) (inputs_wfm : List (List ℚ))
    (genome : List ℚ) : List (List ℚ) :=
  match p.trafoCfg with
  | none => inputs_wfm
  | some tc => tc.2 inputs_wfm (geneSelect genome tc.1)

/-- Assembly of x_dummy, continued: x_dummy starts as np.empty (modelled by the
junk fill value), the data block is scattered transposed into the
input_indices columns, and the control block is scattered into the remaining
columns. -/
def x_dummy_for (p : SingleChipSimulationNN) (junk : ℚ) (inputs_wfm : List (List ℚ))
    (genome : List ℚ) (target_wfm : List ℚ) : List (List ℚ) :=
  let control_voltage_genes := controlBlock target_wfm (geneSelect genome p.control_indx)
  let control_voltage_genes_index := npDelete p.nn_input_dim p.input_indices
  let x0 := List.replicate control_voltage_genes.length (List.replicate p.nn_input_dim junk)
  let x1 := assignCols x0 p.input_indices (transposeL (dataBlockOf p inputs_wfm genome))
  assignCols x1 control_voltage_genes_index control_voltage_genes

/-- Embeds SingleChipSimulationNN.optimize: for every genome of the gene pool
in order, the assembled x_dummy is fed to the model inference and column 0 of
the result (modelled as headD 0 of each output row) becomes that genome output
row. -/
def SingleChipSimulationNN.optimize (p : SingleChipSimulationNN) (junk : ℚ)
    (inputs_wfm : List (List ℚ)) (gene_pool : List (List ℚ)) (target_wfm : List ℚ) :
    List (List ℚ) :=
  gene_pool.map (fun genome =>
    (p.model (x_dummy_for p junk inputs_wfm genome target_wfm)).map (fun row => row.headD 0))

/-- Configuration mapping handed to get_platform, with the keys the source
reads. -/
structure PlatformConfigs where
  modality : String
  torch_model_path : String
  input_indices : List Nat
  control_indices : List Nat
  trafoCfg : Option TrafoCfg

/-- The three platform classes of the source; SingleChip and
SingleChipSimulationKMC have empty constructors (pass). -/
inductive Platform where
  | singleChip : Platform
  | nn : SingleChipSimulationNN → Platform
  | kmc : Platform

/-- Embeds get_platform: dispatches on the modality string; the unrecognized
case raises NotImplementedError with the message naming the modality.  The
loadModel argument stands for the checkpoint loading performed inside the
SingleChipSimulationNN constructor; it is consulted only on that branch. -/
def get_platform (cfg : PlatformConfigs) (loadModel : String → ModelInfo) :
    Except String Platform :=
  if cfg.modality = "single_chip" then .ok .singleChip
  else if cfg.modality = "single_chip_simulation_nn" then
    (SingleChipSimulationNN.init (loadModel cfg.torch_model_path) cfg.input_indices
      cfg.control_indices cfg.trafoCfg).map Platform.nn
  else if cfg.modality = "single_chip_simulation_kmc" then .ok .kmc
  else .error ("Platform " ++ cfg.modality ++ " is not recognized!")

/- ## Concrete fixtures used by witnesses and counterexamples -/

/-- A file system with a root document whose single effect entry includes a
directive-free sibling file: the Ring scenario of the specification. -/
def ringFS : FS :=
  [ (["home", "one-ring.yml"],
      .ymap (.cons "Name" (.scalar "Ring")
        (.cons "Effects" (.seq (.cons (.inc ["sub.yml"]) .nil)) .nil))),
    (["home", "sub.yml"], .ymap (.cons "Name" (.scalar "invisibility") .nil)) ]

/-- A file system in which the included file itself holds a nested relative
include: the root includes sub/sub.yml, which includes sub2.yml by a path
relative to its own directory. -/
def nestedFS : FS :=
  [ (["d", "root.yml"], .ymap (.cons "Effects" (.inc ["sub", "sub.yml"]) .nil)),
    (["d", "sub", "sub.yml"], .ymap (.cons "Inner" (.inc ["sub2.yml"]) .nil)),
    (["d", "sub", "sub2.yml"], .scalar "x") ]

/-- A cyclic include graph: a.yml includes b.yml and b.yml includes a.yml. -/
def cycFS : FS :=
  [ (["d", "a.yml"], .inc ["b.yml"]),
    (["d", "b.yml"], .inc ["a.yml"]) ]

/-- A small model for the witnesses: three input channels, inference is the
identity on the assembled matrix. -/
def idModelInfo : ModelInfo := ⟨1, [0, 0, 0], fun x => x⟩

/-- A platform for the witnesses: three model inputs, data input on channel 0,
control genes read from gene positions 0 and 1, no trafo, identity inference. -/
def testPlatform : SingleChipSimulationNN := ⟨1, 3, [0], [0, 1], none, fun x => x⟩

/- ## Helper lemmas -/

theorem assignRow_length (idxs : List Nat) (vals : List ℚ) (row : List ℚ) :
    (assignRow row idxs vals).length = row.length := by
  induction idxs generalizing row vals with
  | nil => simp [assignRow]
  | cons i is ih =>
    cases vals with
    | nil => simp [assignRow]
    | cons v vs => simp [assignRow, ih]

theorem assignRow_getD_not_mem (idxs : List Nat) (vals : List ℚ) (row : List ℚ)
    (c : Nat) (hc : c ∉ idxs) :
    (assignRow row idxs vals).getD c 0 = row.getD c 0 := by
  induction idxs generalizing row vals with
  | nil => simp [assignRow]
  | cons i is ih =>
    cases vals with
    | nil => simp [assignRow]
    | cons v vs =>
      have hci : i ≠ c := by
        intro h
        exact hc (h ▸ List.mem_cons_self i is)
      have hcs : c ∉ is := fun h => hc (List.mem_cons_of_mem _ h)
      show (assignRow (row.set i v) is vs).getD c 0 = row.getD c 0
      rw [ih vs (row.set i v) hcs]
      simp [List.getD_eq_getElem?_getD, List.getElem?_set_ne hci]

theorem assignRow_getD_nodup (idxs : List Nat) (vals : List ℚ) (row : List ℚ)
    (k : Nat) (hnd : idxs.Nodup) (hk : k < idxs.length) (hkv : k < vals.length)
    (hlt : idxs.getD k 0 < row.length) :
    (assignRow row idxs vals).getD (idxs.getD k 0) 0 = vals.getD k 0 := by
  induction idxs generalizing row vals k with
  | nil => simp at hk
  | cons i is ih =>
    cases vals with
    | nil => simp at hkv
    | cons v vs =>
      cases k with
      | zero =>
        have hi : i ∉ is := (List.nodup_cons.mp hnd).1
        show (assignRow (row.set i v) is vs).getD ((i :: is).getD 0 0) 0 = v
        simp only [List.getD_cons_zero] at hlt ⊢
        rw [assignRow_getD_not_mem is vs _ i hi]
        simp [List.getD_eq_getElem?_getD, List.getElem?_set_self hlt]
      | succ k =>
        have hnd2 : is.Nodup := (List.nodup_cons.mp hnd).2
        show (assignRow (row.set i v) is vs).getD ((i :: is).getD (k + 1) 0) 0 = vs.getD k 0
        simp only [List.getD_cons_succ] at hlt ⊢
        exact ih vs (row.set i v) k hnd2 (by simpa using hk) (by simpa using hkv)
          (by simpa [List.length_set] using hlt)

theorem assignCols_length (m : List (List ℚ)) (idxs : List Nat) (vals : List (List ℚ)) :
    (assignCols m idxs vals).length = m.length := by
  simp [assignCols]

theorem assignCols_getD (m : List (List ℚ)) (idxs : List Nat) (vals : List (List ℚ))
    (t : Nat) (ht : t < m.length) :
    (assignCols m idxs vals).getD t [] = assignRow (m.getD t []) idxs (vals.getD t []) := by
  simp [assignCols, List.getD_eq_getElem?_getD, List.getElem?_range ht]

theorem mem_npDelete {dim : Nat} {idxs : List Nat} {c : Nat} :
    c ∈ npDelete dim idxs ↔ c < dim ∧ c ∉ idxs := by
  simp [npDelete, List.mem_filter, List.mem_range]

theorem npDelete_nodup (dim : Nat) (idxs : List Nat) : (npDelete dim idxs).Nodup :=
  List.Nodup.filter _ (List.nodup_range dim)

theorem length_filter_split {α : Type} (p : α → Bool) (l : List α) :
    (l.filter p).length + (l.filter (fun a => !(p a))).length = l.length := by
  induction l with
  | nil => simp
  | cons a l ih =>
    by_cases h : p a = true <;>
      simp [List.filter_cons, h, ← ih] <;> omega

theorem npDelete_length (dim : Nat) (idxs : List Nat) (hnd : idxs.Nodup)
    (hsub : ∀ i ∈ idxs, i < dim) :
    (npDelete dim idxs).length = dim - idxs.length := by
  have hperm : List.Perm ((List.range dim).filter (fun c => decide (c ∈ idxs))) idxs := by
    rw [List.perm_ext_iff_of_nodup (List.Nodup.filter _ (List.nodup_range dim)) hnd]
    intro a
    simp only [List.mem_filter, List.mem_range, decide_eq_true_eq]
    constructor
    · exact fun h => h.2
    · exact fun h => ⟨hsub a h, h⟩
  have hlen : ((List.range dim).filter (fun c => decide (c ∈ idxs))).length = idxs.length :=
    hperm.length_eq
  have hsplit := length_filter_split (fun c => decide (c ∈ idxs)) (List.range dim)
  have heq : ((List.range dim).filter (fun c => !(decide (c ∈ idxs)))).length
      = (npDelete dim idxs).length := by
    unfold npDelete
    congr 1
    apply List.filter_congr
    intro a _
    simp [decide_not]
  rw [heq, hlen, List.length_range] at hsplit
  omega

theorem controlBlock_getD (target_wfm genes : List ℚ) (t : Nat) (ht : t < target_wfm.length) :
    (controlBlock target_wfm genes).getD t [] = genes := by
  simp [controlBlock, List.getD_eq_getElem?_getD, List.getElem?_replicate, ht]

theorem transposeL_getD (m : List (List ℚ)) (t : Nat) (ht : t < (m.headD []).length) :
    (transposeL m).getD t [] = m.map (fun row => row.getD t 0) := by
  unfold transposeL
  rw [List.getD_eq_getElem?_getD, List.getElem?_map, List.getElem?_range ht]
  rfl

theorem x_dummy_length (p : SingleChipSimulationNN) (junk : ℚ)
    (inputs_wfm : List (List ℚ)) (genome : List ℚ) (target_wfm : List ℚ) :
    (x_dummy_for p junk inputs_wfm genome target_wfm).length = target_wfm.length := by
  simp [x_dummy_for, assignCols_length, controlBlock]

theorem x_dummy_row (p : SingleChipSimulationNN) (junk : ℚ)
    (inputs_wfm : List (List ℚ)) (genome : List ℚ) (target_wfm : List ℚ)
    (t : Nat) (ht : t < target_wfm.length) :
    (x_dummy_for p junk inputs_wfm genome target_wfm).getD t [] =
      assignRow
        (assignRow (List.replicate p.nn_input_dim junk) p.input_indices
          ((transposeL (dataBlockOf p inputs_wfm genome)).getD t []))
        (npDelete p.nn_input_dim p.input_indices)
        ((controlBlock target_wfm (geneSelect genome p.control_indx)).getD t []) := by
  unfold x_dummy_for
  have hlen0 : (controlBlock target_wfm (geneSelect genome p.control_indx)).length
      = target_wfm.length := by simp [controlBlock]
  have ht0 : t < (List.replicate (controlBlock target_wfm
      (geneSelect genome p.control_indx)).length
      (List.replicate p.nn_input_dim junk)).length := by
    simpa [hlen0] using ht
  have ht1 : t < (assignCols (List.replicate (controlBlock target_wfm
      (geneSelect genome p.control_indx)).length (List.replicate p.nn_input_dim junk))
      p.input_indices (transposeL (dataBlockOf p inputs_wfm genome))).length := by
    simpa [assignCols_length] using ht0
  rw [assignCols_getD _ _ _ t ht1, assignCols_getD _ _ _ t ht0]
  congr 1
  simp [List.getD_eq_getElem?_getD, List.getElem?_replicate, Nat.lt_of_lt_of_eq ht hlen0.symm]

/- ## Claims about the platform chooser -/

/-- C5: for every genome, the control block assembled during evaluation is
constant across time-steps: each of the time-step rows is an identical copy of
the selected control-gene values. -/
theorem claim_C5_control_block_constant (target_wfm genes : List ℚ) :
    controlBlock target_wfm genes = List.replicate target_wfm.length genes := by
  simp [controlBlock]

/-- C4: for every gene pool, input waveform and target waveform, evaluate
returns a matrix of shape (population size, time-steps of the target
waveform), and row j is the model output for genome j restricted to output
channel 0. -/
theorem claim_C4_output_shape (p : SingleChipSimulationNN) (junk : ℚ)
    (inputs_wfm gene_pool : List (List ℚ)) (target_wfm : List ℚ)
    (hmodel : ∀ x, (p.model x).length = x.length) :
    (p.optimize junk inputs_wfm gene_pool target_wfm).length = gene_pool.length ∧
    (∀ row ∈ p.optimize junk inputs_wfm gene_pool target_wfm,
      row.length = target_wfm.length) ∧
    (∀ j, j < gene_pool.length →
      (p.optimize junk inputs_wfm gene_pool target_wfm).getD j [] =
        (p.model (x_dummy_for p junk inputs_wfm (gene_pool.getD j []) target_wfm)).map
          (fun row => row.headD 0)) := by
  refine ⟨by simp [SingleChipSimulationNN.optimize], ?_, ?_⟩
  · intro row hrow
    simp only [SingleChipSimulationNN.optimize, List.mem_map] at hrow
    obtain ⟨genome, hg, hrow⟩ := hrow
    rw [← hrow]
    simp [hmodel, x_dummy_length]
  · intro j hj
    simp [SingleChipSimulationNN.optimize, List.getD_eq_getElem?_getD,
      List.getElem?_eq_getElem hj]

/-- Witness for C4 at a concrete platform and population. -/
theorem claim_C4_output_shape_witness :
    (testPlatform.optimize 0 [[1, 2]] [[3, 4], [5, 6]] [7, 7]).length =
      ([[3, 4], [5, 6]] : List (List ℚ)).length ∧
    (∀ row ∈ testPlatform.optimize 0 [[1, 2]] [[3, 4], [5, 6]] [7, 7],
      row.length = ([7, 7] : List ℚ).length) ∧
    (∀ j, j < ([[3, 4], [5, 6]] : List (List ℚ)).length →
      (testPlatform.optimize 0 [[1, 2]] [[3, 4], [5, 6]] [7, 7]).getD j [] =
        (testPlatform.model (x_dummy_for testPlatform 0 [[1, 2]]
            (([[3, 4], [5, 6]] : List (List ℚ)).getD j []) [7, 7])).map
          (fun row => row.headD 0)) :=
  claim_C4_output_shape testPlatform 0 [[1, 2]] [[3, 4], [5, 6]] [7, 7] (fun _ => rfl)

/-- C8: reindexing the rows of the gene pool reindexes the rows of the output
identically; applied to a permutation of the indices this is exactly
permutation-equivariance, so no cross-genome leakage occurs. -/
theorem claim_C8_row_independence (p : SingleChipSimulationNN) (junk : ℚ)
    (inputs_wfm gene_pool : List (List ℚ)) (target_wfm : List ℚ) (σ : List Nat)
    (hσ : ∀ i ∈ σ, i < gene_pool.length) :
    p.optimize junk inputs_wfm (σ.map (fun i => gene_pool.getD i [])) target_wfm =
      σ.map (fun i => (p.optimize junk inputs_wfm gene_pool target_wfm).getD i []) := by
  unfold SingleChipSimulationNN.optimize
  rw [List.map_map]
  apply List.map_congr_left
  intro i hi
  simp [List.getD_eq_getElem?_getD, List.getElem?_eq_getElem (hσ i hi)]

/-- Witness for C8: swapping the two genomes swaps the two output rows. -/
theorem claim_C8_row_independence_witness :
    testPlatform.optimize 0 [[1, 2]]
        (([1, 0] : List Nat).map (fun i => ([[3, 4], [5, 6]] : List (List ℚ)).getD i [])) [7, 7] =
      ([1, 0] : List Nat).map
        (fun i => (testPlatform.optimize 0 [[1, 2]] [[3, 4], [5, 6]] [7, 7]).getD i []) :=
  claim_C8_row_independence testPlatform 0 [[1, 2]] [[3, 4], [5, 6]] [7, 7] [1, 0]
    (by intro i hi; fin_cases hi <;> decide)

/-- C6: with no trafo configured, the data-input block entering the assembled
matrix at the data-input channel positions is the input waveform itself,
unmodified, for every genome. -/
theorem claim_C6_identity_transform (p : SingleChipSimulationNN) (junk : ℚ)
    (W : List (List ℚ)) (genome : List ℚ) (target_wfm : List ℚ)
    (htr : p.trafoCfg = none)
    (hnd : p.input_indices.Nodup)
    (hsub : ∀ i ∈ p.input_indices, i < p.nn_input_dim)
    (hW : W.length = p.input_indices.length)
    (hWr : ∀ r ∈ W, r.length = target_wfm.length) :
    ∀ t, t < target_wfm.length → ∀ k, k < p.input_indices.length →
      ((x_dummy_for p junk W genome target_wfm).getD t []).getD
          (p.input_indices.getD k 0) 0 =
        (W.getD k []).getD t 0 := by
  intro t ht k hk
  rw [x_dummy_row p junk W genome target_wfm t ht]
  have hc_mem : p.input_indices.getD k 0 ∈ p.input_indices := by
    rw [List.getD_eq_getElem _ _ hk]
    exact List.getElem_mem hk
  have hc_not : p.input_indices.getD k 0 ∉ npDelete p.nn_input_dim p.input_indices := by
    intro hmem
    exact (mem_npDelete.mp hmem).2 hc_mem
  rw [assignRow_getD_not_mem _ _ _ _ hc_not]
  have hWne : W ≠ [] := by
    intro h
    rw [h] at hW
    simp at hW
    omega
  obtain ⟨w, rest, hwr⟩ := List.exists_cons_of_ne_nil hWne
  have hdb : dataBlockOf p W genome = W := by
    unfold dataBlockOf
    rw [htr]
  have ht2 : t < (W.headD []).length := by
    rw [hwr]
    simp only [List.headD_cons]
    rw [hWr w (by rw [hwr]; exact List.mem_cons_self w rest)]
    exact ht
  rw [hdb, transposeL_getD W t ht2]
  rw [assignRow_getD_nodup p.input_indices (W.map (fun row => row.getD t 0))
    (List.replicate p.nn_input_dim junk) k hnd hk
    (by rw [List.length_map, hW]; exact hk)
    (by rw [List.length_replicate]; exact hsub _ hc_mem)]
  have hkW : k < W.length := by rw [hW]; exact hk
  simp [List.getD_eq_getElem?_getD, List.getElem?_eq_getElem hkW]

/-- Witness for C6 at a concrete platform with no trafo, at time-step 1 and
data-channel position 0. -/
theorem claim_C6_identity_transform_witness :
    ((x_dummy_for testPlatform 9 [[1, 2]] [3, 4] [7, 7]).getD 1 []).getD
        (testPlatform.input_indices.getD 0 0) 0 =
      (([[1, 2]] : List (List ℚ)).getD 0 []).getD 1 0 :=
  claim_C6_identity_transform testPlatform 9 [[1, 2]] [3, 4] [7, 7]
    rfl (by decide) (by decide) rfl (by decide) 1 (by decide) 0 (by decide)

/-- C9: the model-input columns that receive the broadcast control values are
exactly the complement of input_indices below nn_input_dim (the np.delete of
the input indices from the full index range), independent of the contents and
order of control_indx, which is consulted only to select gene positions. -/
theorem claim_C9_control_columns (p : SingleChipSimulationNN) (junk : ℚ)
    (inputs_wfm : List (List ℚ)) (genome : List ℚ) (target_wfm : List ℚ)
    (hnd : p.input_indices.Nodup)
    (hsub : ∀ i ∈ p.input_indices, i < p.nn_input_dim)
    (hlen : p.control_indx.length = p.nn_input_dim - p.input_indices.length) :
    ∀ t, t < target_wfm.length →
      ∀ k, k < (npDelete p.nn_input_dim p.input_indices).length →
      ((x_dummy_for p junk inputs_wfm genome target_wfm).getD t []).getD
          ((npDelete p.nn_input_dim p.input_indices).getD k 0) 0 =
        (geneSelect genome p.control_indx).getD k 0 := by
  intro t ht k hk
  rw [x_dummy_row p junk inputs_wfm genome target_wfm t ht]
  rw [controlBlock_getD _ _ t ht]
  have hmem : (npDelete p.nn_input_dim p.input_indices).getD k 0 ∈
      npDelete p.nn_input_dim p.input_indices := by
    rw [List.getD_eq_getElem _ _ hk]
    exact List.getElem_mem hk
  exact assignRow_getD_nodup (npDelete p.nn_input_dim p.input_indices)
    (geneSelect genome p.control_indx) _ k (npDelete_nodup _ _) hk
    (by
      unfold geneSelect
      rw [List.length_map, hlen, ← npDelete_length _ _ hnd hsub]
      exact hk)
    (by
      rw [assignRow_length, List.length_replicate]
      exact (mem_npDelete.mp hmem).1)

/-- Witness for C9 at a concrete platform, at time-step 0 and complement
position 1: that column receives the second selected control value. -/
theorem claim_C9_control_columns_witness :
    ((x_dummy_for testPlatform 9 [[1, 2]] [3, 4] [7, 7]).getD 0 []).getD
        ((npDelete testPlatform.nn_input_dim testPlatform.input_indices).getD 1 0) 0 =
      (geneSelect [3, 4] testPlatform.control_indx).getD 1 0 :=
  claim_C9_control_columns testPlatform 9 [[1, 2]] [3, 4] [7, 7]
    (by decide) (by decide) (by decide) 0 (by decide) 1 (by decide)

/-- C2 counterexample: with three model input channels, one input index and a
single control index, construction fails via the bare assert, and the
AssertionError message is the empty string, which does not name the expected
count two (nor the actual count one). -/
theorem claim_C2_counterexample :
    SingleChipSimulationNN.init idModelInfo [0] [5] none = Except.error "" ∧
    ¬ ∃ a b : String, "" = a ++ "2" ++ b := by
  constructor
  · rfl
  · rintro ⟨a, b, h⟩
    have hlen := congrArg String.length h
    simp [String.length_append] at hlen
    have h2 : ("2" : String).length = 1 := rfl
    omega

/-- C2 amended: whenever the control-index count differs from the model input
dimension minus the number of input indices, construction of the surrogate
backend fails before any inference call, via the bare assertion that carries
an empty diagnostic. -/
theorem claim_C2_partition_mismatch (info : ModelInfo)
    (input_indices control_indices : List Nat) (tc : Option TrafoCfg)
    (h : (info.amplitude.length : ℤ) - (input_indices.length : ℤ) ≠
      (control_indices.length : ℤ)) :
    SingleChipSimulationNN.init info input_indices control_indices tc =
      Except.error "" := by
  simp only [SingleChipSimulationNN.init]
  rw [if_neg h]

/-- Witness for the amended C2 at a concrete mismatched configuration. -/
theorem claim_C2_partition_mismatch_witness :
    SingleChipSimulationNN.init idModelInfo [0] [5] none = Except.error "" :=
  claim_C2_partition_mismatch idModelInfo [0] [5] none (by decide)

/-- C3: for every configuration whose modality is none of the three recognized
values, get_platform fails with an error message naming the offending
modality, and the result does not depend on the model loader at all, so no
model load or other construction side effect occurs. -/
theorem claim_C3_unsupported_modality (cfg : PlatformConfigs)
    (loadModel : String → ModelInfo)
    (h1 : cfg.modality ≠ "single_chip")
    (h2 : cfg.modality ≠ "single_chip_simulation_nn")
    (h3 : cfg.modality ≠ "single_chip_simulation_kmc") :
    (∃ a b : String,
      get_platform cfg loadModel = Except.error (a ++ cfg.modality ++ b)) ∧
    ∀ loadModel2 : String → ModelInfo,
      get_platform cfg loadModel2 = get_platform cfg loadModel := by
  constructor
  · refine ⟨"Platform ", " is not recognized!", ?_⟩
    simp [get_platform, h1, h2, h3]
  · intro loadModel2
    simp [get_platform, h1, h2, h3]

/-- Witness for C3 with the quantum-chip modality of the specification. -/
theorem claim_C3_unsupported_modality_witness :
    (∃ a b : String,
      get_platform ⟨"quantum_chip", "p", [], [], none⟩ (fun _ => idModelInfo) =
        Except.error (a ++ "quantum_chip" ++ b)) ∧
    ∀ loadModel2 : String → ModelInfo,
      get_platform ⟨"quantum_chip", "p", [], [], none⟩ loadModel2 =
        get_platform ⟨"quantum_chip", "p", [], [], none⟩ (fun _ => idModelInfo) :=
  claim_C3_unsupported_modality ⟨"quantum_chip", "p", [], [], none⟩
    (fun _ => idModelInfo) (by decide) (by decide) (by decide)

/- ## Claims about the configuration loader -/

mutual
/-- Helper: the plain loader fails with the constructor error exactly when the
document contains a directive, and succeeds otherwise. -/
theorem plainLoad_spec : ∀ d : YDoc,
    (hasIncb d = true ∧ plainLoad d = Except.error incTagErr) ∨
    (hasIncb d = false ∧ ∃ pd, plainLoad d = Except.ok pd)
  | .scalar s => Or.inr ⟨rfl, ⟨.scalar s, rfl⟩⟩
  | .inc _ => Or.inl ⟨rfl, rfl⟩
  | .seq ds => by
    rcases plainLoadSeq_spec ds with ⟨h1, h2⟩ | ⟨h1, ps, h2⟩
    · exact Or.inl ⟨by simp [hasIncb, h1], by simp [plainLoad, h2]⟩
    · exact Or.inr ⟨by simp [hasIncb, h1], ⟨.seq ps, by simp [plainLoad, h2]⟩⟩
  | .ymap kvs => by
    rcases plainLoadMap_spec kvs with ⟨h1, h2⟩ | ⟨h1, pm, h2⟩
    · exact Or.inl ⟨by simp [hasIncb, h1], by simp [plainLoad, h2]⟩
    · exact Or.inr ⟨by simp [hasIncb, h1], ⟨.pmap pm, by simp [plainLoad, h2]⟩⟩

/-- Sequence case of plainLoad_spec. -/
theorem plainLoadSeq_spec : ∀ ds : YSeq,
    (hasIncSeq ds = true ∧ plainLoadSeq ds = Except.error incTagErr) ∨
    (hasIncSeq ds = false ∧ ∃ ps, plainLoadSeq ds = Except.ok ps)
  | .nil => Or.inr ⟨rfl, ⟨.nil, rfl⟩⟩
  | .cons d rest => by
    rcases plainLoad_spec d with ⟨h1, h2⟩ | ⟨h1, pd, h2⟩
    · exact Or.inl ⟨by simp [hasIncSeq, h1], by simp [plainLoadSeq, h2]⟩
    · rcases plainLoadSeq_spec rest with ⟨g1, g2⟩ | ⟨g1, ps, g2⟩
      · exact Or.inl ⟨by simp [hasIncSeq, g1], by simp [plainLoadSeq, h2, g2]⟩
      · exact Or.inr ⟨by simp [hasIncSeq, h1, g1],
          ⟨.cons pd ps, by simp [plainLoadSeq, h2, g2]⟩⟩

/-- Mapping case of plainLoad_spec. -/
theorem plainLoadMap_spec : ∀ kvs : YMap,
    (hasIncMap kvs = true ∧ plainLoadMap kvs = Except.error incTagErr) ∨
    (hasIncMap kvs = false ∧ ∃ pm, plainLoadMap kvs = Except.ok pm)
  | .nil => Or.inr ⟨rfl, ⟨.nil, rfl⟩⟩
  | .cons k d rest => by
    rcases plainLoad_spec d with ⟨h1, h2⟩ | ⟨h1, pd, h2⟩
    · exact Or.inl ⟨by simp [hasIncMap, h1], by simp [plainLoadMap, h2]⟩
    · rcases plainLoadMap_spec rest with ⟨g1, g2⟩ | ⟨g1, pm, g2⟩
      · exact Or.inl ⟨by simp [hasIncMap, g1], by simp [plainLoadMap, h2, g2]⟩
      · exact Or.inr ⟨by simp [hasIncMap, h1, g1],
          ⟨.cons k pd pm, by simp [plainLoadMap, h2, g2]⟩⟩
end

mutual
/-- Helper: on a directive-free document, the plain loader succeeds with the
direct translation. -/
theorem plainLoad_dirFree : ∀ d : YDoc, hasIncb d = false →
    plainLoad d = Except.ok (toPDoc d)
  | .scalar s => fun _ => rfl
  | .inc _ => fun h => by simp [hasIncb] at h
  | .seq ds => fun h => by
    have h1 : hasIncSeq ds = false := by simpa [hasIncb] using h
    simp [plainLoad, plainLoadSeq_dirFree ds h1, toPDoc]
  | .ymap kvs => fun h => by
    have h1 : hasIncMap kvs = false := by simpa [hasIncb] using h
    simp [plainLoad, plainLoadMap_dirFree kvs h1, toPDoc]

/-- Sequence case of plainLoad_dirFree. -/
theorem plainLoadSeq_dirFree : ∀ ds : YSeq, hasIncSeq ds = false →
    plainLoadSeq ds = Except.ok (toPSeq ds)
  | .nil => fun _ => rfl
  | .cons d rest => fun h => by
    have h1 : hasIncb d = false := by
      rcases Bool.or_eq_false_iff.mp (by simpa [hasIncSeq] using h) with ⟨a, _⟩
      exact a
    have h2 : hasIncSeq rest = false := by
      rcases Bool.or_eq_false_iff.mp (by simpa [hasIncSeq] using h) with ⟨_, b⟩
      exact b
    simp [plainLoadSeq, plainLoad_dirFree d h1, plainLoadSeq_dirFree rest h2, toPSeq]

/-- Mapping case of plainLoad_dirFree. -/
theorem plainLoadMap_dirFree : ∀ kvs : YMap, hasIncMap kvs = false →
    plainLoadMap kvs = Except.ok (toPMap kvs)
  | .nil => fun _ => rfl
  | .cons k d rest => fun h => by
    have h1 : hasIncb d = false := by
      rcases Bool.or_eq_false_iff.mp (by simpa [hasIncMap] using h) with ⟨a, _⟩
      exact a
    have h2 : hasIncMap rest = false := by
      rcases Bool.or_eq_false_iff.mp (by simpa [hasIncMap] using h) with ⟨_, b⟩
      exact b
    simp [plainLoadMap, plainLoad_dirFree d h1, plainLoadMap_dirFree rest h2, toPMap]
end

mutual
/-- Helper: when every directive of the root document references a file present
in the file system with directive-free contents, resolution succeeds and
returns the expected substitution. -/
theorem incResolve_oneLevel : ∀ (fs : FS) (base : Path) (d : YDoc),
    oneLevelOKb fs base d = true →
    incResolve fs base d = Except.ok (specResolve fs base d)
  | _, _, .scalar s => fun _ => rfl
  | fs, base, .inc rel => fun h => by
    rcases hl : lookupFS fs (pathJoin base rel) with _ | d2
    · rw [oneLevelOKb, hl] at h
      simp at h
    · rw [oneLevelOKb, hl] at h
      have hfree : hasIncb d2 = false := by simpa using h
      show IncludeLoader_include fs base rel = _
      simp only [IncludeLoader_include, hl]
      rw [plainLoad_dirFree d2 hfree]
      simp [specResolve, hl]
  | fs, base, .seq ds => fun h => by
    have h1 : oneLevelOKSeq fs base ds = true := by simpa [oneLevelOKb] using h
    simp [incResolve, incResolveSeq_oneLevel fs base ds h1, specResolve]
  | fs, base, .ymap kvs => fun h => by
    have h1 : oneLevelOKMap fs base kvs = true := by simpa [oneLevelOKb] using h
    simp [incResolve, incResolveMap_oneLevel fs base kvs h1, specResolve]

/-- Sequence case of incResolve_oneLevel. -/
theorem incResolveSeq_oneLevel : ∀ (fs : FS) (base : Path) (ds : YSeq),
    oneLevelOKSeq fs base ds = true →
    incResolveSeq fs base ds = Except.ok (specResolveSeq fs base ds)
  | _, _, .nil => fun _ => rfl
  | fs, base, .cons d rest => fun h => by
    have hsplit := Bool.and_eq_true_iff.mp (by simpa [oneLevelOKSeq] using h)
    simp [incResolveSeq, incResolve_oneLevel fs base d hsplit.1,
      incResolveSeq_oneLevel fs base rest hsplit.2, specResolveSeq]

/-- Mapping case of incResolve_oneLevel. -/
theorem incResolveMap_oneLevel : ∀ (fs : FS) (base : Path) (kvs : YMap),
    oneLevelOKMap fs base kvs = true →
    incResolveMap fs base kvs = Except.ok (specResolveMap fs base kvs)
  | _, _, .nil => fun _ => rfl
  | fs, base, .cons k d rest => fun h => by
    have hsplit := Bool.and_eq_true_iff.mp (by simpa [oneLevelOKMap] using h)
    simp [incResolveMap, incResolve_oneLevel fs base d hsplit.1,
      incResolveMap_oneLevel fs base rest hsplit.2, specResolveMap]
end

/-- C7: resolving a root document whose inclusion directives all reference
directive-free files present in the file system yields the fully merged
document: every directive scalar is replaced by the referenced file contents,
and the resolved document type has no directive constructor, so no residual
inclusion marker can remain. -/
theorem claim_C7_full_resolution (fs : FS) (file_name : Path) (d : YDoc)
    (hfile : lookupFS fs file_name = some d)
    (hok : oneLevelOKb fs (dirname file_name) d = true) :
    load_configs fs file_name = Except.ok (specResolve fs (dirname file_name) d) := by
  unfold load_configs
  rw [hfile]
  exact incResolve_oneLevel fs (dirname file_name) d hok

/-- Witness for C7: the Ring scenario of the specification resolves to the
fully merged mapping. -/
theorem claim_C7_full_resolution_witness :
    load_configs ringFS ["home", "one-ring.yml"] =
      Except.ok (.pmap (.cons "Name" (.scalar "Ring")
        (.cons "Effects"
          (.seq (.cons (.pmap (.cons "Name" (.scalar "invisibility") .nil)) .nil))
          .nil))) :=
  claim_C7_full_resolution ringFS ["home", "one-ring.yml"]
    (.ymap (.cons "Name" (.scalar "Ring")
      (.cons "Effects" (.seq (.cons (.inc ["sub.yml"]) .nil)) .nil)))
    rfl rfl

/-- C1: the nested-include scenario evaluated on the code: although the nested
file sub/sub2.yml exists at the path relative to the directory of the included
file sub/sub.yml, resolving the root fails with the constructor error, because
the code loads the included file with the plain loader (which has no
constructor for the directive tag) after restoring the base directory. -/
theorem claim_C1_nested_include_eval :
    load_configs nestedFS ["d", "root.yml"] = Except.error incTagErr ∧
    lookupFS nestedFS (pathJoin (dirname ["d", "sub", "sub.yml"]) ["sub2.yml"]) =
      some (.scalar "x") :=
  ⟨rfl, rfl⟩

/-- C10: resolution terminates on every include graph: a directive that
appears inside an included file is handed to the plain loader (the nested load
consults only the file contents, never the include-aware loader), and the
plain loader fails with the constructor error exactly when such a directive is
present, so resolution returns after at most one level of inclusion or fails;
in particular the cyclic graph in which a.yml includes b.yml and b.yml
includes a.yml resolves to the constructor error instead of recursing. -/
theorem claim_C10_termination :
    (∀ (fs : FS) (root rel : Path),
      incResolve fs root (YDoc.inc rel) =
        match lookupFS fs (pathJoin root rel) with
        | none => Except.error fileNotFoundErr
        | some d => plainLoad d) ∧
    (∀ d : YDoc, hasIncb d = true ↔ plainLoad d = Except.error incTagErr) ∧
    load_configs cycFS ["d", "a.yml"] = Except.error incTagErr := by
  refine ⟨fun fs root rel => rfl, fun d => ?_, rfl⟩
  rcases plainLoad_spec d with ⟨h1, h2⟩ | ⟨h1, pd, h2⟩
  · exact ⟨fun _ => h2, fun _ => h1⟩
  · constructor
    · intro h
      rw [h1] at h
      exact Bool.noConfusion h
    · intro h
      rw [h2] at h
      exact Except.noConfusion h

end BspyAlgo
